/-
  Verification of the TeleFrame media catalog core against its specification.

  Shallow embedding of the Content Store (`image_manager.py`), the Integrity
  Layer (`_save_metadata` / `_validate_json_file`) and the Sequencer
  (the ordering subset of `slideshow.py`).

  External effects that the Python code performs through collaborators are
  represented as explicit inputs:
    * the outcome of `validate_file` (MIME/type/size checks) is the Boolean
      request field `valid`;
    * the SHA-256 digest computed by `_calculate_file_hash` from the file
      bytes is the request field `fileHash` (the digest is a pure function of
      the bytes, so identical bytes always carry identical `fileHash`);
    * whether `_save_metadata` succeeds or raises is the request field
      `saveOk` (an I/O oracle);
    * `random.shuffle` is an oracle list, a permutation of `range n`;
    * on-disk file contents are an explicit `FileState` record.
  File deletion of evicted media (`Path.unlink`) is an external side effect
  on the filesystem and is not part of the in-memory catalog state.
-/
import Mathlib

set_option linter.unusedVariables false

/-! ## Data model: `ImageInfo` (dataclass in `image_manager.py`) -/

/-- One catalog entry, mirroring the `ImageInfo` dataclass.  `datetime` is
modelled as a `Nat` instant. -/
structure ImageInfo where
  src : String
  sender : String
  caption : String
  chat_id : Int
  chat_name : String
  message_id : Int
  timestamp : Nat
  starred : Bool := false
  unseen : Bool := true
  file_hash : Option String := none
  file_size : Nat := 0
deriving DecidableEq, Repr

/-- The slice of `TeleFrameConfig` that the Content Store reads. -/
structure TFConfig where
  image_count : Nat
  auto_delete_images : Bool := true
deriving DecidableEq, Repr

/-- One `add_image` call with its external-collaborator outcomes made
explicit (see the header comment). -/
structure AddRequest where
  src : String
  sender : String
  caption : String
  chat_id : Int
  chat_name : String
  message_id : Int
  now : Nat
  fileSize : Nat
  valid : Bool
  fileHash : String
  saveOk : Bool
deriving DecidableEq, Repr

/-- The `ImageInfo` constructed inside `add_image` for a request. -/
def imageInfoOfRequest (r : AddRequest) : ImageInfo :=
  { src := r.src, sender := r.sender, caption := r.caption,
    chat_id := r.chat_id, chat_name := r.chat_name,
    message_id := r.message_id, timestamp := r.now,
    starred := false, unseen := true,
    file_hash := some r.fileHash, file_size := r.fileSize }

/-! ## Content Store operations -/

/-- `_cleanup_old_images`: evict entries beyond `config.image_count`,
keeping starred entries preferentially.  The resulting list is
`starred ++ non_starred.take k` exactly as the Python code assigns
`self.images = to_keep`. -/
def cleanupOldImages (cfg : TFConfig) (images : List ImageInfo) : List ImageInfo :=
  if images.length ≤ cfg.image_count then images
  else
    let non_starred := images.filter (fun i => !i.starred)
    let starred := images.filter (fun i => i.starred)
    if cfg.image_count ≤ starred.length then
      starred.take cfg.image_count
    else
      starred ++ non_starred.take (cfg.image_count - starred.length)

/-- `add_image`: validate, dedupe by hash, prepend, evict, persist.
Returns the new in-memory list and the Boolean result.  When
`_save_metadata` raises (`saveOk = false`) the surrounding
`except` block returns `False`; the already-performed insertion and
eviction are kept (the code performs no rollback). -/
def addImage (cfg : TFConfig) (st : List ImageInfo) (r : AddRequest) :
    List ImageInfo × Bool :=
  if r.valid = false then (st, false)
  else if st.any (fun e => e.file_hash == some r.fileHash) then (st, false)
  else
    let st1 := imageInfoOfRequest r :: st
    let st2 := cleanupOldImages cfg st1
    (st2, r.saveOk)

/-- Fold a sequence of `add_image` calls over a starting library. -/
def addImages (cfg : TFConfig) (st : List ImageInfo) (reqs : List AddRequest) :
    List ImageInfo :=
  reqs.foldl (fun s r => (addImage cfg s r).1) st

/-- `star_image`: toggle the star flag at a valid index (then persist). -/
def starImage (st : List ImageInfo) (i : Nat) : List ImageInfo × Bool :=
  if h : i < st.length then
    let e := st.get ⟨i, h⟩
    (st.set i { e with starred := !e.starred }, true)
  else (st, false)

/-- `mark_image_seen`: on a valid unseen index, clear `unseen`, persist and
return `True`; on an already-seen index return `False` with no save.
The second Boolean records whether `_save_metadata` was invoked. -/
def markImageSeen (st : List ImageInfo) (i : Nat) :
    List ImageInfo × Bool × Bool :=
  if h : i < st.length then
    let img := st.get ⟨i, h⟩
    if img.unseen then
      (st.set i { img with unseen := false }, true, true)
    else (st, false, false)
  else (st, false, false)

/-! ## Content Store lemmas -/

/-- When the library fits the capacity, eviction is a no-op. -/
lemma cleanupOldImages_of_le {cfg : TFConfig} {l : List ImageInfo}
    (h : l.length ≤ cfg.image_count) : cleanupOldImages cfg l = l := by
  unfold cleanupOldImages
  rw [if_pos h]

/-- When the library exceeds the capacity, eviction shrinks it to the
capacity at most. -/
lemma cleanupOldImages_length_le {cfg : TFConfig} {l : List ImageInfo}
    (h : cfg.image_count < l.length) :
    (cleanupOldImages cfg l).length ≤ cfg.image_count := by
  unfold cleanupOldImages
  rw [if_neg (by omega)]
  by_cases hs : cfg.image_count ≤ (l.filter (fun i => i.starred)).length
  · rw [if_pos hs]
    simp
  · rw [if_neg hs]
    simp only [List.length_append, List.length_take]
    omega

/-- After any completed `add_image` call on a within-capacity library the
library is still within capacity (success or not: the duplicate and
invalid branches leave it unchanged and the insert branch evicts). -/
lemma addImage_length_le (cfg : TFConfig) (st : List ImageInfo)
    (r : AddRequest) (h : st.length ≤ cfg.image_count) :
    (addImage cfg st r).1.length ≤ cfg.image_count := by
  unfold addImage
  by_cases hv : r.valid = false
  · rw [if_pos hv]; exact h
  · rw [if_neg hv]
    by_cases hd : st.any (fun e => e.file_hash == some r.fileHash)
    · rw [if_pos hd]; exact h
    · rw [if_neg hd]
      simp only
      by_cases hl : (imageInfoOfRequest r :: st).length ≤ cfg.image_count
      · rw [cleanupOldImages_of_le hl]; exact hl
      · exact cleanupOldImages_length_le (by omega)

/-- Folding `add_image` calls keeps a within-capacity library within
capacity. -/
lemma addImages_length_le (cfg : TFConfig) (reqs : List AddRequest) :
    ∀ st : List ImageInfo, st.length ≤ cfg.image_count →
      (addImages cfg st reqs).length ≤ cfg.image_count := by
  induction reqs with
  | nil => intro st h; exact h
  | cons r rest ih =>
      intro st h
      exact ih _ (addImage_length_le cfg st r h)

/-- No two entries of `l` carry the same content hash. -/
def hashesDistinct (l : List ImageInfo) : Prop :=
  l.Pairwise (fun a b => a.file_hash ≠ b.file_hash)

instance (l : List ImageInfo) : Decidable (hashesDistinct l) := by
  unfold hashesDistinct
  infer_instance

/-- Eviction keeps a (reordered) selection of the existing entries: the
result is a sublist of some permutation of the input. -/
lemma cleanupOldImages_sublist_perm (cfg : TFConfig) (l : List ImageInfo) :
    ∃ l', List.Sublist (cleanupOldImages cfg l) l' ∧ List.Perm l' l := by
  unfold cleanupOldImages
  by_cases h : l.length ≤ cfg.image_count
  · rw [if_pos h]
    exact ⟨l, List.Sublist.refl l, List.Perm.refl l⟩
  · rw [if_neg h]
    refine ⟨l.filter (fun i => i.starred) ++ l.filter (fun i => !i.starred),
      ?_, ?_⟩
    · by_cases hs : cfg.image_count ≤ (l.filter (fun i => i.starred)).length
      · rw [if_pos hs]
        exact (List.take_sublist _ _).trans
          (List.sublist_append_left _ _)
      · rw [if_neg hs]
        exact (List.take_sublist _ _).append_left _
    · exact List.filter_append_perm (fun i => i.starred) l
  
/-- Hash distinctness survives eviction. -/
lemma hashesDistinct_cleanupOldImages {cfg : TFConfig} {l : List ImageInfo}
    (h : hashesDistinct l) : hashesDistinct (cleanupOldImages cfg l) := by
  obtain ⟨l', hsub, hperm⟩ := cleanupOldImages_sublist_perm cfg l
  have hl' : hashesDistinct l' :=
    h.perm hperm.symm (fun hxy => Ne.symm hxy)
  exact hl'.sublist hsub

/-- `add_image` preserves hash distinctness: the duplicate check refuses any
hash already present, so the prepended entry is fresh. -/
lemma hashesDistinct_addImage (cfg : TFConfig) (st : List ImageInfo)
    (r : AddRequest) (h : hashesDistinct st) :
    hashesDistinct (addImage cfg st r).1 := by
  unfold addImage
  by_cases hv : r.valid = false
  · rw [if_pos hv]; exact h
  · rw [if_neg hv]
    by_cases hd : st.any (fun e => e.file_hash == some r.fileHash)
    · rw [if_pos hd]; exact h
    · rw [if_neg hd]
      simp only
      apply hashesDistinct_cleanupOldImages
      unfold hashesDistinct
      rw [List.pairwise_cons]
      refine ⟨?_, h⟩
      intro e he
      simp only [List.any_eq_true, not_exists, not_and] at hd
      have := hd e he
      simp only [beq_iff_eq] at this
      simp only [imageInfoOfRequest]
      intro hcontra
      exact this hcontra.symm

/-- Folding `add_image` calls preserves hash distinctness. -/
lemma hashesDistinct_addImages (cfg : TFConfig) (reqs : List AddRequest) :
    ∀ st : List ImageInfo, hashesDistinct st →
      hashesDistinct (addImages cfg st reqs) := by
  induction reqs with
  | nil => intro st h; exact h
  | cons r rest ih =>
      intro st h
      exact ih _ (hashesDistinct_addImage cfg st r h)

/-- A concrete well-formed `add_image` request used in scenarios. -/
def mkReq (name hash : String) : AddRequest :=
  { src := name, sender := "tester", caption := "", chat_id := 1,
    chat_name := "chat", message_id := 1, now := 0, fileSize := 1,
    valid := true, fileHash := hash, saveOk := true }

/-! ## Concrete scenarios for the eviction claims -/

/-- Capacity 3; add A, B, C, D (D's insertion evicts A), star B and D,
then add E.  Mirrors the spec's starred-exemption scenario. -/
def c4Lib : List ImageInfo :=
  let cfg : TFConfig := ⟨3, true⟩
  let s1 := (addImage cfg [] (mkReq "A" "hA")).1
  let s2 := (addImage cfg s1 (mkReq "B" "hB")).1
  let s3 := (addImage cfg s2 (mkReq "C" "hC")).1
  let s4 := (addImage cfg s3 (mkReq "D" "hD")).1
  let s5 := (starImage s4 2).1
  let s6 := (starImage s5 0).1
  (addImage cfg s6 (mkReq "E" "hE")).1

/-- Capacity 2; add A, star it, add B, then add C (which triggers
eviction). -/
def c5Lib : List ImageInfo :=
  let cfg : TFConfig := ⟨2, true⟩
  let s1 := (addImage cfg [] (mkReq "A" "hA")).1
  let s2 := (starImage s1 0).1
  let s3 := (addImage cfg s2 (mkReq "B" "hB")).1
  (addImage cfg s3 (mkReq "C" "hC")).1

/-! ## Claim C1 (corrected) -/

/-- C1, counterexample: an `add_image` call on an empty library whose
persistence step raises (`saveOk = false`) returns the failure result, yet
the in-memory library is NOT identical to its pre-call state: it retains
the prepended entry.  The `except` block of `add_image` only returns
`False`; it never undoes `self.images.insert(0, ...)`.  This refutes the
claim that the in-memory insertion is rolled back. -/
theorem c1_counterexample :
    (addImage ⟨10, true⟩ []
        { mkReq "A" "hA" with saveOk := false }).2 = false ∧
    (addImage ⟨10, true⟩ []
        { mkReq "A" "hA" with saveOk := false }).1 ≠ [] := by
  decide

/-- C1, amended: for every store state and every `add_image` call that
passes validation and the duplicate check but whose persistence step
(`_save_metadata`) raises, `add_image` returns the failure result `false`,
and the in-memory library KEEPS the prepended entry together with any
eviction effect (no rollback occurs). -/
theorem c1_no_rollback_on_persist_failure (cfg : TFConfig)
    (st : List ImageInfo) (r : AddRequest) (hv : r.valid = true)
    (hd : st.any (fun e => e.file_hash == some r.fileHash) = false)
    (hs : r.saveOk = false) :
    addImage cfg st r =
      (cleanupOldImages cfg (imageInfoOfRequest r :: st), false) := by
  unfold addImage
  rw [if_neg (by simp [hv]), if_neg (by simp [hd]), hs]

/-- Witness for C1's amended theorem at a concrete input. -/
theorem c1_witness :
    addImage ⟨10, true⟩ [] { mkReq "A" "hA" with saveOk := false } =
      (cleanupOldImages ⟨10, true⟩
        [imageInfoOfRequest { mkReq "A" "hA" with saveOk := false }], false) :=
  c1_no_rollback_on_persist_failure ⟨10, true⟩ []
    { mkReq "A" "hA" with saveOk := false }
    (by decide) (by decide) (by decide)

/-! ## Claim C2 (confirmed) -/

/-- C2: for every configured capacity and every sequence of `add_image`
calls starting from a within-capacity library (in particular the empty
one), after each call completes the library length satisfies
`Count() <= Capacity`.  The theorem is stated for every prefix of the call
sequence, hence "after each call"; it covers all calls, successful or
not, which subsumes the claim's successful ones. -/
theorem c2_capacity_invariant (cfg : TFConfig) (reqs : List AddRequest)
    (st : List ImageInfo) (h : st.length ≤ cfg.image_count) (k : Nat) :
    (addImages cfg st (reqs.take k)).length ≤ cfg.image_count :=
  addImages_length_le cfg (reqs.take k) st h

/-- Witness for C2 at a concrete input: capacity 2, three adds, after the
whole sequence the library holds at most 2 entries. -/
theorem c2_witness :
    (addImages ⟨2, true⟩ []
      ([mkReq "A" "hA", mkReq "B" "hB", mkReq "C" "hC"].take 3)).length
      ≤ (2 : Nat) :=
  c2_capacity_invariant ⟨2, true⟩
    [mkReq "A" "hA", mkReq "B" "hB", mkReq "C" "hC"] [] (by decide) 3

/-! ## Claim C3 (confirmed) -/

/-- C3: for every sequence of `add_image` calls from an empty library, no
two entries of the resulting library share a content hash; and an
`add_image` call whose file hash equals some existing entry's hash returns
the negative (duplicate) result and leaves the library — including its
length — unchanged. -/
theorem c3_dedup_invariant (cfg : TFConfig) (reqs : List AddRequest)
    (st : List ImageInfo) (r : AddRequest)
    (hdup : ∃ e ∈ st, e.file_hash = some r.fileHash) :
    hashesDistinct (addImages cfg [] reqs) ∧
    addImage cfg st r = (st, false) := by
  refine ⟨hashesDistinct_addImages cfg reqs [] List.Pairwise.nil, ?_⟩
  unfold addImage
  by_cases hv : r.valid = false
  · rw [if_pos hv]
  · rw [if_neg hv, if_pos ?_]
    obtain ⟨e, he, hh⟩ := hdup
    rw [List.any_eq_true]
    exact ⟨e, he, by simp [hh]⟩

/-- Witness for C3 at a concrete input: a second add with the same hash is
refused and leaves the one-entry library unchanged. -/
theorem c3_witness :
    hashesDistinct (addImages ⟨5, true⟩ [] [mkReq "A" "hA", mkReq "B" "hB"]) ∧
    addImage ⟨5, true⟩ [imageInfoOfRequest (mkReq "A" "hA")]
        { mkReq "A2" "hA" with saveOk := true } =
      ([imageInfoOfRequest (mkReq "A" "hA")], false) :=
  c3_dedup_invariant ⟨5, true⟩ [mkReq "A" "hA", mkReq "B" "hB"]
    [imageInfoOfRequest (mkReq "A" "hA")] { mkReq "A2" "hA" with saveOk := true }
    ⟨imageInfoOfRequest (mkReq "A" "hA"), by decide, by decide⟩

/-! ## Claim C4 (confirmed) -/

/-- C4: with capacity 3, after adding A, B, C, D in order, starring B and
D, then adding E, the eviction triggered by E's insertion leaves the
library holding exactly D, B and E (as a set, `{B, D, E}`): both starred
entries survive, A and C are gone, and the single unstarred slot holds E.
(The resulting order is starred-first: `[D, B, E]`.) -/
theorem c4_starred_exemption :
    c4Lib.map (fun i => i.src) = ["D", "B", "E"] ∧
    (c4Lib.filter (fun i => i.starred)).map (fun i => i.src) = ["D", "B"] := by
  decide

/-! ## Claim C5 (corrected) -/

/-- C5, counterexample: with capacity 2, add A, star it, add B, then add C.
C's insertion triggers eviction; `_cleanup_old_images` rebuilds the list as
`starred ++ non_starred.take k`, so the surviving library is `[A, C]`:
index 0 holds the old starred entry A, not the most-recently-added
surviving entry C.  This refutes the claim that after every mutating
operation index 0 holds the most-recently-added surviving entry. -/
theorem c5_counterexample :
    c5Lib.map (fun i => i.src) = ["A", "C"] ∧
    (c5Lib.getD 0 (imageInfoOfRequest (mkReq "X" "hX"))).src ≠ "C" := by
  decide

/-- C5, amended: as long as no eviction is triggered (the library fits the
capacity after the insertion), `add_image` prepends the new entry, so
index 0 holds the most-recently-added entry and all older entries keep
their relative insertion order; in particular after adding A then B then C
with capacity at least 3, `Get(0)==C, Get(1)==B, Get(2)==A`.  An eviction
pass, however, reorders the library to all starred entries first (each
block in former order), so index 0 may then hold an older starred entry. -/
theorem c5_prepend_without_eviction (cfg : TFConfig) (st : List ImageInfo)
    (r : AddRequest) (hv : r.valid = true)
    (hd : st.any (fun e => e.file_hash == some r.fileHash) = false)
    (hlen : st.length + 1 ≤ cfg.image_count) :
    (addImage cfg st r).1 = imageInfoOfRequest r :: st := by
  unfold addImage
  rw [if_neg (by simp [hv]), if_neg (by simp [hd])]
  simp only
  exact cleanupOldImages_of_le (by simpa using hlen)

/-- Witness for C5's amended theorem: adding A then B then C with capacity
3 yields the library `[C, B, A]` (index 0 is C, then B, then A). -/
theorem c5_witness :
    (addImage ⟨3, true⟩
      (addImages ⟨3, true⟩ [] [mkReq "A" "hA", mkReq "B" "hB"])
      (mkReq "C" "hC")).1 =
      imageInfoOfRequest (mkReq "C" "hC") ::
        addImages ⟨3, true⟩ [] [mkReq "A" "hA", mkReq "B" "hB"] :=
  c5_prepend_without_eviction ⟨3, true⟩
    (addImages ⟨3, true⟩ [] [mkReq "A" "hA", mkReq "B" "hB"])
    (mkReq "C" "hC") (by decide) (by decide) (by decide)

/-! ## Claim C9 (confirmed) -/

/-- C9: for every valid index `i`, `mark_image_seen i` on an already-seen
entry returns `false`, invokes no persistence and leaves the library
unchanged; on an unseen entry it clears the flag at `i`, invokes
persistence and returns `true`; and an immediately repeated call always
returns `false` (the `true` result happens at most once per entry absent
an administrative reset). -/
theorem c9_mark_seen_one_way (st : List ImageInfo) (i : Nat)
    (h : i < st.length) :
    (st[i].unseen = false → markImageSeen st i = (st, false, false)) ∧
    (st[i].unseen = true →
      markImageSeen st i =
        (st.set i { st[i] with unseen := false }, true, true)) ∧
    (markImageSeen (markImageSeen st i).1 i).2.1 = false := by
  refine ⟨?_, ?_, ?_⟩
  · intro hseen
    simp [markImageSeen, h, hseen]
  · intro hunseen
    simp [markImageSeen, h, hunseen]
  · by_cases hu : st[i].unseen = true
    · have h2 : i < (st.set i { st[i] with unseen := false }).length := by
        simpa using h
      simp [markImageSeen, h, hu, h2, List.getElem_set]
    · simp [markImageSeen, h, hu]

/-- Witness for C9 at a concrete input: a one-entry unseen library; the
call marks it seen and persists, and a repeated call returns `false`. -/
theorem c9_witness :
    markImageSeen [imageInfoOfRequest (mkReq "A" "hA")] 0 =
      ([imageInfoOfRequest (mkReq "A" "hA")].set 0
        { [imageInfoOfRequest (mkReq "A" "hA")][0] with unseen := false },
       true, true) ∧
    (markImageSeen
      (markImageSeen [imageInfoOfRequest (mkReq "A" "hA")] 0).1 0).2.1 = false :=
  ⟨(c9_mark_seen_one_way [imageInfoOfRequest (mkReq "A" "hA")] 0
      (by decide)).2.1 (by decide),
   (c9_mark_seen_one_way [imageInfoOfRequest (mkReq "A" "hA")] 0
      (by decide)).2.2⟩

/-! ## Integrity Layer (`_save_metadata`, `_validate_json_file`) -/

/-- A JSON document. -/
inductive Json where
  | null
  | bool (b : Bool)
  | num (n : Int)
  | str (s : String)
  | arr (items : List Json)
  | obj (fields : List (String × Json))

/-- The mandatory fields checked by `_validate_json_file`. -/
def requiredFields : List String :=
  ["src", "sender", "timestamp", "chat_id", "message_id"]

/-- One record of the metadata list is valid when it is an object carrying
every mandatory field. -/
def isValidEntry : Json → Bool
  | .obj fields => requiredFields.all (fun f => fields.any (fun p => p.1 == f))
  | _ => false

/-- `_validate_json_file`: the document must be a list whose items are all
valid records. -/
def validateJsonFile : Json → Bool
  | .arr items => items.all isValidEntry
  | _ => false

/-- `ImageInfo.to_dict`: serialize one entry (timestamp via its ISO string,
modelled as `toString`). -/
def imageToDict (i : ImageInfo) : Json :=
  .obj [("src", .str i.src), ("sender", .str i.sender),
        ("caption", .str i.caption), ("chat_id", .num i.chat_id),
        ("chat_name", .str i.chat_name), ("message_id", .num i.message_id),
        ("timestamp", .str (toString i.timestamp)),
        ("starred", .bool i.starred), ("unseen", .bool i.unseen),
        ("file_hash", match i.file_hash with
                      | some h => .str h
                      | none => .null),
        ("file_size", .num (Int.ofNat i.file_size))]

/-- `data = [img.to_dict() for img in self.images]`. -/
def serializeImages (images : List ImageInfo) : Json :=
  .arr (images.map imageToDict)

/-- The on-disk files `_save_metadata` touches: the live metadata file, the
`.backup` sibling and the `.tmp` temporary, each `none` when absent. -/
structure FileState where
  live : Option Json
  backup : Option Json
  temp : Option Json
deriving Inhabited

/-- `_save_metadata`: write the serialized data to the temporary file,
re-read and validate it, back up the live file, then atomically move the
temporary over the live file.  `written` is the temporary file's content
as the validator reads it back: it equals `serializeImages images` when
the underlying write is faithful (see `validateJsonFile_serializeImages`)
but may be arbitrary when the write was interrupted, which is how the
validation step can fail.  The Boolean result is `false` exactly when the
function raises (the `except` branch deletes the temporary file and
re-raises). -/
def saveMetadata (images : List ImageInfo) (written : Json)
    (fs : FileState) : FileState × Bool :=
  let fs1 : FileState := { fs with temp := some written }
  if validateJsonFile written then
    let fs2 : FileState :=
      match fs1.live with
      | some l => { fs1 with backup := some l }
      | none => fs1
    ({ fs2 with live := some written, temp := none }, true)
  else
    ({ fs1 with temp := none }, false)

/-- A faithfully written serialization always passes structural
validation: `to_dict` emits every mandatory field. -/
lemma validateJsonFile_serializeImages (images : List ImageInfo) :
    validateJsonFile (serializeImages images) = true := by
  unfold serializeImages validateJsonFile
  rw [List.all_eq_true]
  intro x hx
  obtain ⟨i, _, rfl⟩ := List.mem_map.mp hx
  rfl

/-! ## Claim C6 (confirmed) -/

/-- C6: whenever the content found in the temporary file fails structural
validation, `_save_metadata` raises, the live metadata file (and the
backup) are left exactly as they were, and the temporary file is deleted
on that failure path. -/
theorem c6_save_aborts_on_invalid (images : List ImageInfo) (written : Json)
    (fs : FileState) (hbad : validateJsonFile written = false) :
    saveMetadata images written fs =
      ({ live := fs.live, backup := fs.backup, temp := none }, false) := by
  unfold saveMetadata
  rw [hbad]
  simp

/-- Witness for C6 at a concrete input: a temporary file holding a bare
number is not a list, so the save raises, leaves the live file alone and
deletes the temporary. -/
theorem c6_witness :
    saveMetadata [imageInfoOfRequest (mkReq "A" "hA")] (Json.num 7)
        { live := some (serializeImages []), backup := none,
          temp := none } =
      ({ live := some (serializeImages []), backup := none,
         temp := none }, false) :=
  c6_save_aborts_on_invalid [imageInfoOfRequest (mkReq "A" "hA")]
    (Json.num 7)
    { live := some (serializeImages []), backup := none, temp := none }
    rfl

/-! ## Sequencer (the ordering subset of `slideshow.py`)

`random.shuffle` is modelled by an oracle argument `shuffle`, the permuted
list the call would produce; the real call always yields a permutation of
`range n`, which the theorems carry as a hypothesis where needed. -/

/-- The four image-order policies (`config.get_image_order_mode()`). -/
inductive OrderMode where
  | random
  | latest
  | oldest
  | sequential
deriving DecidableEq, Repr

/-- The Sequencer state: the derived sequence of store indices, the cursor
`sequence_index`, and the mode the sequence was generated for
(`None` before the first generation, like the Python attribute). -/
structure SlideshowState where
  image_sequence : List Nat
  sequence_index : Nat
  last_order_mode : Option OrderMode
deriving DecidableEq, Repr

/-- State before any sequence has been generated. -/
def initState : SlideshowState := ⟨[], 0, none⟩

/-- `_generate_random_sequence`: `random.shuffle` applied to
`list(range(n))`, supplied here as the oracle `shuffle`. -/
def generateRandomSequence (n : Nat) (shuffle : List Nat) : List Nat :=
  shuffle

/-- `_generate_latest_sequence`: `list(range(image_count))`. -/
def generateLatestSequence (n : Nat) : List Nat :=
  List.range n

/-- `_generate_oldest_sequence`: `list(range(image_count - 1, -1, -1))`,
the reverse of `range n`. -/
def generateOldestSequence (n : Nat) : List Nat :=
  (List.range n).reverse

/-- `_generate_sequential_sequence`: `list(range(image_count))`. -/
def generateSequentialSequence (n : Nat) : List Nat :=
  List.range n

/-- `_update_image_sequence`: regenerate the sequence for the current mode
unless neither the mode nor the count changed (and no force); reset the
cursor to 0 on every regeneration. -/
def updateImageSequence (force : Bool) (mode : OrderMode) (n : Nat)
    (shuffle : List Nat) (st : SlideshowState) : SlideshowState :=
  if n = 0 then { st with image_sequence := [] }
  else if force = false ∧ st.last_order_mode = some mode ∧
      st.image_sequence.length = n then st
  else
    { image_sequence :=
        match mode with
        | .random => generateRandomSequence n shuffle
        | .latest => generateLatestSequence n
        | .oldest => generateOldestSequence n
        | .sequential => generateSequentialSequence n,
      sequence_index := 0,
      last_order_mode := some mode }

/-- `next_image` (Advance): refresh if needed; for `random` mode force a
reshuffle when `sequence_index >= len(image_sequence) - 1`; step the
cursor forward modulo the sequence length and return the store index at
the new cursor position (`None` when there is nothing to show). -/
def nextImage (mode : OrderMode) (n : Nat) (shuffle : List Nat)
    (st : SlideshowState) : SlideshowState × Option Nat :=
  if n = 0 then (st, none)
  else
    let st1 := updateImageSequence false mode n shuffle st
    if st1.image_sequence = [] then (st1, none)
    else
      let st2 :=
        if mode = OrderMode.random ∧
            st1.image_sequence.length - 1 ≤ st1.sequence_index then
          updateImageSequence true mode n shuffle st1
        else st1
      let newIdx := (st2.sequence_index + 1) % st2.image_sequence.length
      ({ st2 with sequence_index := newIdx },
       some (st2.image_sequence.getD newIdx 0))

/-- Run a series of `next_image` calls, one oracle per call, collecting
the returned store indices. -/
def nextImageRun (mode : OrderMode) (n : Nat) :
    List (List Nat) → SlideshowState → SlideshowState × List (Option Nat)
  | [], st => (st, [])
  | sh :: rest, st =>
      let p := nextImage mode n sh st
      let q := nextImageRun mode n rest p.1
      (q.1, p.2 :: q.2)

/-- The store indices returned by `n` consecutive Advance calls after a
fresh forced refresh (shuffle oracles irrelevant for non-random modes). -/
def freshAdvanceOutputs (mode : OrderMode) (n : Nat) : List (Option Nat) :=
  (nextImageRun mode n (List.replicate n [])
    (updateImageSequence true mode n [] initState)).2

/-! ## Sequencer lemmas -/

/-- A non-forced refresh is a no-op when mode and count are unchanged. -/
lemma updateImageSequence_reuse (mode : OrderMode) (n : Nat)
    (sh s : List Nat) (j : Nat) (hlen : s.length = n) (hn : n ≠ 0) :
    updateImageSequence false mode n sh ⟨s, j, some mode⟩ =
      ⟨s, j, some mode⟩ := by
  unfold updateImageSequence
  rw [if_neg hn, if_pos ⟨rfl, rfl, hlen⟩]

/-- A forced refresh regenerates the sequence for the mode and resets the
cursor to 0. -/
lemma updateImageSequence_force (mode : OrderMode) (n : Nat)
    (sh : List Nat) (st : SlideshowState) (hn : n ≠ 0) :
    updateImageSequence true mode n sh st =
      ⟨match mode with
        | .random => generateRandomSequence n sh
        | .latest => generateLatestSequence n
        | .oldest => generateOldestSequence n
        | .sequential => generateSequentialSequence n,
       0, some mode⟩ := by
  unfold updateImageSequence
  rw [if_neg hn, if_neg (by simp)]

/-- One Advance step in steady state for a non-random mode: the sequence is
reused and the cursor moves one step modulo `n`. -/
lemma nextImage_steady (mode : OrderMode) (hm : mode ≠ OrderMode.random)
    (n : Nat) (sh s : List Nat) (j : Nat) (hlen : s.length = n)
    (hn : n ≠ 0) :
    nextImage mode n sh ⟨s, j, some mode⟩ =
      (⟨s, (j + 1) % n, some mode⟩, some (s.getD ((j + 1) % n) 0)) := by
  have hne : s ≠ [] := by
    intro hcon
    rw [hcon] at hlen
    exact hn hlen.symm
  unfold nextImage
  rw [if_neg hn]
  simp only [updateImageSequence_reuse mode n sh s j hlen hn]
  rw [if_neg (by simpa using hne), if_neg (by simp [hm])]
  simp only [hlen]

/-- A run of Advance calls in steady state for a non-random mode: the
cursor accumulates modulo `n` and the outputs read the fixed sequence at
the successive cursor positions. -/
lemma nextImageRun_steady (mode : OrderMode) (hm : mode ≠ OrderMode.random)
    (n : Nat) (s : List Nat) (hlen : s.length = n) (hn : n ≠ 0) :
    ∀ (os : List (List Nat)) (j : Nat), j < n →
      nextImageRun mode n os ⟨s, j, some mode⟩ =
        (⟨s, (j + os.length) % n, some mode⟩,
         (List.range os.length).map
           (fun i => some (s.getD ((j + i + 1) % n) 0))) := by
  intro os
  induction os with
  | nil =>
      intro j hj
      simp [nextImageRun, Nat.mod_eq_of_lt hj]
  | cons sh rest ih =>
      intro j hj
      have hstep := nextImage_steady mode hm n sh s j hlen hn
      have hlt : (j + 1) % n < n := Nat.mod_lt _ (by omega)
      have hrest := ih ((j + 1) % n) hlt
      simp only [nextImageRun, hstep, hrest]
      rw [Prod.mk.injEq]
      refine ⟨?_, ?_⟩
      · simp only [SlideshowState.mk.injEq, true_and, and_true]
        rw [Nat.mod_add_mod]
        have harg : j + 1 + rest.length = j + (sh :: rest).length := by
          simp only [List.length_cons]
          omega
        rw [harg]
      · rw [List.length_cons, List.range_succ_eq_map, List.map_cons,
          List.map_map]
        congr 1
        apply List.map_congr_left
        intro a ha
        simp only [Function.comp_apply]
        have harg : (j + 1) % n + a + 1 = (j + 1) % n + (a + 1) := by
          omega
        rw [harg, Nat.mod_add_mod]
        have harg2 : j + 1 + (a + 1) = j + Nat.succ a + 1 := by omega
        rw [harg2]

/-- Reading `range n` at a valid position gives the position itself. -/
lemma getD_range (n i : Nat) (h : i < n) : (List.range n).getD i 0 = i := by
  simp [List.getD_eq_getElem?_getD, List.getElem?_range h]

/-- Reading a list at every position in order reproduces the list. -/
lemma map_getD_range (s : List Nat) :
    (List.range s.length).map (fun i => s.getD i 0) = s := by
  induction s with
  | nil => rfl
  | cons a t ih =>
      rw [List.length_cons, List.range_succ_eq_map, List.map_cons,
        List.map_map]
      congr 1

/-- Stepping every position forward by one modulo `n` permutes
`range n` (it rotates it). -/
lemma succ_mod_perm (n : Nat) :
    List.Perm ((List.range n).map (fun i => (i + 1) % n)) (List.range n) := by
  cases n with
  | zero => simp
  | succ m =>
      have h1 : (List.range (m + 1)).map (fun i => (i + 1) % (m + 1)) =
          (List.range m).map Nat.succ ++ [0] := by
        rw [List.range_succ, List.map_append]
        congr 1
        · apply List.map_congr_left
          intro i hi
          have him : i < m := List.mem_range.mp hi
          exact Nat.mod_eq_of_lt (by omega)
        · simp
      rw [h1]
      refine (List.perm_append_singleton 0 _).trans ?_
      rw [← List.range_succ_eq_map]

/-- The values read off a fixed sequence `s` of length `n` at the cursor
positions of `n` consecutive Advance steps are a permutation of `s`. -/
lemma advance_reads_perm (s : List Nat) (n : Nat) (hlen : s.length = n) :
    List.Perm
      ((List.range n).map (fun i => some (s.getD ((0 + i + 1) % n) 0)))
      (s.map some) := by
  have e1 : (List.range n).map (fun i => some (s.getD ((0 + i + 1) % n) 0)) =
      ((List.range n).map (fun i => (i + 1) % n)).map
        (fun k => some (s.getD k 0)) := by
    rw [List.map_map]
    apply List.map_congr_left
    intro i hi
    simp
  rw [e1]
  refine ((succ_mod_perm n).map (fun k => some (s.getD k 0))).trans ?_
  subst hlen
  have e2 : (List.range s.length).map (fun k => some (s.getD k 0)) =
      ((List.range s.length).map (fun k => s.getD k 0)).map some := by
    rw [List.map_map]
    rfl
  rw [e2, map_getD_range]

/-! ## Claim C7 (confirmed) -/

/-- C7: for each of the `latest`, `oldest` and `sequential` policies over
`n` entries, the `n` Advance calls following a fresh forced refresh return
every store index of `[0, n)` exactly once before any repeat: the returned
list is a permutation of `[some 0, ..., some (n-1)]` (and such a
permutation of distinct values has no duplicate).  Moreover the generated
sequence for `sequential` equals the one for `latest` (the identity
order), and `oldest` generates its exact reverse. -/
theorem c7_sequencer_coverage (n : Nat) (mode : OrderMode)
    (hmode : mode = OrderMode.latest ∨ mode = OrderMode.oldest ∨
      mode = OrderMode.sequential) :
    List.Perm (freshAdvanceOutputs mode n) ((List.range n).map some) ∧
    generateSequentialSequence n = generateLatestSequence n ∧
    generateOldestSequence n = (generateLatestSequence n).reverse := by
  refine ⟨?_, rfl, rfl⟩
  by_cases hn : n = 0
  · subst hn
    have : freshAdvanceOutputs mode 0 = [] := by
      rcases hmode with h | h | h <;> subst h <;> rfl
    rw [this]
    simp
  · have hm : mode ≠ OrderMode.random := by
      rcases hmode with h | h | h <;> subst h <;> simp
    have hgen : ∃ s : List Nat, s.length = n ∧ List.Perm s (List.range n) ∧
        updateImageSequence true mode n [] initState = ⟨s, 0, some mode⟩ := by
      rcases hmode with h | h | h <;> subst h
      · exact ⟨List.range n, List.length_range n, List.Perm.refl _,
          updateImageSequence_force _ n [] initState hn⟩
      · exact ⟨(List.range n).reverse, by simp, List.reverse_perm _,
          updateImageSequence_force _ n [] initState hn⟩
      · exact ⟨List.range n, List.length_range n, List.Perm.refl _,
          updateImageSequence_force _ n [] initState hn⟩
    obtain ⟨s, hlen, hperm, hfresh⟩ := hgen
    unfold freshAdvanceOutputs
    rw [hfresh]
    rw [nextImageRun_steady mode hm n s hlen hn (List.replicate n []) 0
      (by omega)]
    simp only [List.length_replicate]
    exact (advance_reads_perm s n hlen).trans (hperm.map some)

/-- Witness for C7 at a concrete input: `latest` policy with 3 entries. -/
theorem c7_witness :
    List.Perm (freshAdvanceOutputs OrderMode.latest 3)
      ((List.range 3).map some) ∧
    generateSequentialSequence 3 = generateLatestSequence 3 ∧
    generateOldestSequence 3 = (generateLatestSequence 3).reverse :=
  c7_sequencer_coverage 3 OrderMode.latest (Or.inl rfl)

/-! ## Claim C8 (corrected) -/

/-- One Advance step in `random` mode with the cursor strictly below the
trigger threshold `len - 1`: the shuffle is reused and the cursor moves
one step forward. -/
lemma nextImage_random_noTrigger (n : Nat) (sh s : List Nat) (j : Nat)
    (hlen : s.length = n) (hj : j + 1 < n) :
    nextImage OrderMode.random n sh ⟨s, j, some OrderMode.random⟩ =
      (⟨s, j + 1, some OrderMode.random⟩, some (s.getD (j + 1) 0)) := by
  have hn : n ≠ 0 := by omega
  have hne : s ≠ [] := by
    intro hcon
    rw [hcon] at hlen
    exact hn hlen.symm
  unfold nextImage
  rw [if_neg hn]
  simp only [updateImageSequence_reuse OrderMode.random n sh s j hlen hn]
  rw [if_neg (by simpa using hne), if_neg (by
    rw [hlen]
    simp only [not_and]
    intro _
    omega)]
  simp only [hlen, Nat.mod_eq_of_lt hj]

/-- A run of Advance steps in `random` mode staying below the trigger
threshold keeps the same shuffle while the cursor accumulates. -/
lemma nextImageRun_random_phase (n : Nat) (s : List Nat)
    (hlen : s.length = n) :
    ∀ (os : List (List Nat)) (j : Nat), j + os.length ≤ n - 1 →
      (nextImageRun OrderMode.random n os
        ⟨s, j, some OrderMode.random⟩).1 =
        ⟨s, j + os.length, some OrderMode.random⟩ := by
  intro os
  induction os with
  | nil =>
      intro j hj
      simp [nextImageRun]
  | cons sh rest ih =>
      intro j hj
      have hn1 : 1 ≤ n - 1 := by
        simp only [List.length_cons] at hj
        omega
      have hstep : j + 1 < n := by
        simp only [List.length_cons] at hj
        omega
      simp only [nextImageRun,
        nextImage_random_noTrigger n sh s j hlen hstep]
      have := ih (j + 1) (by
        simp only [List.length_cons] at hj
        omega)
      rw [this]
      simp only [SlideshowState.mk.injEq, true_and, and_true,
        List.length_cons]
      omega

/-- The n-th Advance step in `random` mode, with the cursor at the last
position `n - 1`: the trigger `sequence_index >= len - 1` fires, a fresh
shuffle `sh` replaces the sequence, the cursor is reset to 0 and only then
moved, so the returned store index is the fresh shuffle's entry at
position `1 % n`. -/
lemma nextImage_random_trigger (n : Nat) (sh s : List Nat) (j : Nat)
    (hlen : s.length = n) (hn : n ≠ 0) (hj : n - 1 ≤ j)
    (hsh : sh.length = n) :
    nextImage OrderMode.random n sh ⟨s, j, some OrderMode.random⟩ =
      (⟨sh, 1 % n, some OrderMode.random⟩, some (sh.getD (1 % n) 0)) := by
  have hne : s ≠ [] := by
    intro hcon
    rw [hcon] at hlen
    exact hn hlen.symm
  unfold nextImage
  rw [if_neg hn]
  simp only [updateImageSequence_reuse OrderMode.random n sh s j hlen hn]
  rw [if_neg (by simpa using hne),
    if_pos (by exact ⟨by trivial, by rw [hlen]; exact hj⟩),
    updateImageSequence_force OrderMode.random n sh _ hn]
  simp only [generateRandomSequence, hsh, Nat.zero_add]

/-- The Sequencer state after a fresh random refresh with shuffle `s0`
followed by a run of Advance calls. -/
def c8Mid (n : Nat) (s0 : List Nat) (os : List (List Nat)) :
    SlideshowState :=
  (nextImageRun OrderMode.random n os
    (updateImageSequence true OrderMode.random n s0 initState)).1

/-- C8, counterexample: `random` policy, 3 entries, fresh shuffle
`[2, 0, 1]`.  After one Advance the cursor sits at position 1 — the
second-to-last position of the 3-element sequence.  The claim says the
reshuffle trigger fires at or past the second-to-last position, so the
next Advance should regenerate the sequence (to the offered fresh shuffle
`[1, 2, 0]`) and reset the cursor before moving.  Instead the code's
trigger `sequence_index >= len - 1` does not fire: the stale sequence
`[2, 0, 1]` is kept, the cursor moves to 2 and the returned index is the
stale sequence's entry 1. -/
theorem c8_counterexample :
    (c8Mid 3 [2, 0, 1] [[]]).sequence_index = 1 ∧
    nextImage OrderMode.random 3 [1, 2, 0] (c8Mid 3 [2, 0, 1] [[]]) =
      (⟨[2, 0, 1], 2, some OrderMode.random⟩, some 1) := by
  decide

/-- C8, amended: under the `random` policy with `n` entries and a fresh
refresh with shuffle `s0`, the first `n - 1` Advance calls reuse the same
shuffled sequence `s0`, and the n-th call — the cursor having reached the
LAST position `n - 1`, where the trigger `sequence_index >= len - 1`
fires (not the second-to-last position, as the written trigger
description has it) — regenerates the sequence to the fresh shuffle `s1`
and resets the cursor before moving, rather than cycling the stale
permutation. -/
theorem c8_reshuffle_on_wrap (n : Nat) (hn : 1 ≤ n) (s0 s1 : List Nat)
    (hs0 : s0.length = n) (hs1 : s1.length = n)
    (os : List (List Nat)) (hos : os.length = n - 1) :
    (c8Mid n s0 os).image_sequence = s0 ∧
    (c8Mid n s0 os).sequence_index = n - 1 ∧
    nextImage OrderMode.random n s1 (c8Mid n s0 os) =
      (⟨s1, 1 % n, some OrderMode.random⟩, some (s1.getD (1 % n) 0)) := by
  have hn0 : n ≠ 0 := by omega
  have hmid : c8Mid n s0 os = ⟨s0, n - 1, some OrderMode.random⟩ := by
    unfold c8Mid
    rw [updateImageSequence_force OrderMode.random n s0 initState hn0]
    simp only [generateRandomSequence]
    have := nextImageRun_random_phase n s0 hs0 os 0 (by omega)
    rw [this]
    simp [hos]
  refine ⟨by rw [hmid], by rw [hmid], ?_⟩
  rw [hmid]
  exact nextImage_random_trigger n s1 s0 (n - 1) hs0 hn0 (by omega) hs1

/-- Witness for C8's amended theorem: 3 entries, shuffles `[2, 0, 1]` and
`[1, 2, 0]`, two stale Advance calls then the reshuffling third call. -/
theorem c8_witness :
    (c8Mid 3 [2, 0, 1] [[], []]).image_sequence = [2, 0, 1] ∧
    (c8Mid 3 [2, 0, 1] [[], []]).sequence_index = 2 ∧
    nextImage OrderMode.random 3 [1, 2, 0] (c8Mid 3 [2, 0, 1] [[], []]) =
      (⟨[1, 2, 0], 1 % 3, some OrderMode.random⟩,
       some ([1, 2, 0].getD (1 % 3) 0)) :=
  c8_reshuffle_on_wrap 3 (by decide) [2, 0, 1] [1, 2, 0]
    (by decide) (by decide) [[], []] (by decide)

/-! ## Claim C10 (confirmed) -/

/-- Closed form of the Advance outputs under the `latest` policy: the k-th
call (k from 0) returns store index `(k + 1) % n`. -/
lemma freshAdvanceOutputs_latest (n : Nat) (hn : n ≠ 0) :
    freshAdvanceOutputs OrderMode.latest n =
      (List.range n).map (fun i => some ((i + 1) % n)) := by
  unfold freshAdvanceOutputs
  simp only [updateImageSequence_force OrderMode.latest n [] initState hn,
    generateLatestSequence]
  rw [nextImageRun_steady OrderMode.latest (by simp) n (List.range n)
    (List.length_range n) hn (List.replicate n []) 0
    (Nat.pos_of_ne_zero hn)]
  simp only [List.length_replicate]
  apply List.map_congr_left
  intro i hi
  have hlt : (0 + i + 1) % n < n := Nat.mod_lt _ (Nat.pos_of_ne_zero hn)
  rw [getD_range n _ hlt]
  simp

/-- C10: (1) whenever `_update_image_sequence` actually recomputes the
sequence (the unchanged-mode/count shortcut does not apply and there are
entries), the cursor is reset to position 0; (2) under the `latest`
policy with `n >= 2` entries, Advance moves the cursor before returning:
the first call after a fresh refresh returns the store index at sequence
position 1 (`some 1`), the store index at sequence position 0 (the newest
entry) is absent from the first `n - 1` returns, and the n-th call
returns it (`some 0`) when the cursor wraps. -/
theorem c10_cursor_reset_and_wrap :
    (∀ (force : Bool) (mode : OrderMode) (n : Nat) (sh : List Nat)
        (st : SlideshowState), n ≠ 0 →
        ¬(force = false ∧ st.last_order_mode = some mode ∧
          st.image_sequence.length = n) →
        (updateImageSequence force mode n sh st).sequence_index = 0) ∧
    (∀ n : Nat, 2 ≤ n →
        (freshAdvanceOutputs OrderMode.latest n).head? = some (some 1) ∧
        some 0 ∉ (freshAdvanceOutputs OrderMode.latest n).take (n - 1) ∧
        (freshAdvanceOutputs OrderMode.latest n).getD (n - 1) none =
          some 0) := by
  constructor
  · intro force mode n sh st hn hcond
    unfold updateImageSequence
    rw [if_neg hn, if_neg hcond]
  · intro n hn2
    have hn0 : n ≠ 0 := by omega
    have hpos : 0 < n := by omega
    rw [freshAdvanceOutputs_latest n hn0]
    refine ⟨?_, ?_, ?_⟩
    · rw [List.head?_eq_getElem?, List.getElem?_map,
        List.getElem?_range hpos]
      simp [Nat.mod_eq_of_lt (show 1 < n by omega)]
    · intro hmem
      rw [← List.map_take, List.take_range] at hmem
      obtain ⟨i, hi, heq⟩ := List.mem_map.mp hmem
      have hilt : i < n - 1 := by
        have := List.mem_range.mp hi
        omega
      have h2 : (i + 1) % n = 0 := Option.some.inj heq
      have h3 : (i + 1) % n = i + 1 := Nat.mod_eq_of_lt (by omega)
      rw [h3] at h2
      omega
    · rw [List.getD_eq_getElem?_getD, List.getElem?_map,
        List.getElem?_range (by omega : n - 1 < n)]
      simp only [Option.map_some', Option.getD_some]
      have h1 : n - 1 + 1 = n := by omega
      rw [h1, Nat.mod_self]

/-- Witness for C10 at a concrete input: a forced refresh with 3 entries
resets the cursor, and the first Advance under `latest` returns index 1. -/
theorem c10_witness :
    (updateImageSequence true OrderMode.latest 3 [] initState).sequence_index
      = 0 ∧
    (freshAdvanceOutputs OrderMode.latest 3).head? = some (some 1) :=
  ⟨c10_cursor_reset_and_wrap.1 true OrderMode.latest 3 [] initState
      (by decide) (by simp),
   (c10_cursor_reset_and_wrap.2 3 (by omega)).1⟩
